import Mathlib

/-!
Verification of the route-resolution engine of `react-router` as described by
its typed API (`react-router.d.ts`) and the accompanying specification.

The repository ships only a TypeScript declaration file, so the engine itself
(Path Matcher, Async Node Resolver, Branch Resolver, Transition Pipeline,
Router Orchestrator) is modelled here from the specification's words.  Every
definition whose doc comment starts with "Modelled from the spec" embeds a
part of the engine that has no implementation under `src/`; the declaration
file's types (`PlainRoute`, `RouterState`, `EnterHook`, `RedirectFunction`,
`match`, ...) fix the shapes used below.

Conventions of the embedding:
* React components are identified by natural numbers.
* A `Location` is reduced to its pathname, represented as the list of
  non-empty `/`-separated segments (query/hash/state play no role in the
  properties verified here).
* Asynchronous, continuation-passing loaders (`getChildRoutes`,
  `getIndexRoute`, `getComponent`, `getComponents`) are modelled by their
  eventual result: the value the loader will pass to its completion callback.
  The memoization cache of the Async Node Resolver is explicit state.
* Route identity ("by identity of route node, not by path string") is
  modelled by the `rid` field, a tag playing the role of JavaScript object
  identity in match results, hook diffs and the orchestrator.
-/

namespace ReactRouter

/-- Modelled from the spec: the visible behaviour of a lifecycle hook
(`EnterHook` / `ChangeHook` in the declaration file).  A hook either
completes normally (`proceed`) or calls the provided `RedirectFunction`
with a target path (`redirect`). -/
inductive HookAct where
| proceed
| redirect (loc : String)
deriving DecidableEq, Repr

/-- Modelled from the spec: a `RouteNode` / `PlainRoute` of the configuration
tree.  Per the declaration file a route may carry a `path`, static
`childRoutes` or a deferred `getChildRoutes` loader, a static `indexRoute` or
a deferred `getIndexRoute` loader, a single `component` or named `components`
(or deferred `getComponent` / `getComponents` loaders), and the lifecycle
hooks `onEnter`, `onChange`, `onLeave`.  Deferred loaders are modelled by
their eventual result, components by numeric identifiers, hooks by their
observable behaviour (`onLeave` only by presence, since a leave hook is
fire-and-forget and cannot redirect). -/
inductive RouteNode where
| mk (rid : Nat)
     (path : Option String)
     (childRoutes : List RouteNode)
     (getChildRoutes : Option (List RouteNode))
     (indexRoute : Option RouteNode)
     (getIndexRoute : Option RouteNode)
     (component : Option Nat)
     (getComponent : Option Nat)
     (components : Option (List (String × Nat)))
     (getComponents : Option (List (String × Nat)))
     (onEnter : Option HookAct)
     (onChange : Option HookAct)
     (onLeave : Bool)

/-- Identity tag of a route node (models JavaScript object identity). -/
def RouteNode.rid : RouteNode → Nat
| .mk i _ _ _ _ _ _ _ _ _ _ _ _ => i

/-- Path pattern of a route node. -/
def RouteNode.path : RouteNode → Option String
| .mk _ p _ _ _ _ _ _ _ _ _ _ _ => p

/-- Static child routes of a node. -/
def RouteNode.childRoutes : RouteNode → List RouteNode
| .mk _ _ cs _ _ _ _ _ _ _ _ _ _ => cs

/-- Eventual result of the node's deferred `getChildRoutes` loader, if the
node defines one. -/
def RouteNode.getChildRoutes : RouteNode → Option (List RouteNode)
| .mk _ _ _ gcs _ _ _ _ _ _ _ _ _ => gcs

/-- Static index route of a node. -/
def RouteNode.indexRoute : RouteNode → Option RouteNode
| .mk _ _ _ _ ix _ _ _ _ _ _ _ _ => ix

/-- Eventual result of the node's deferred `getIndexRoute` loader, if the
node defines one. -/
def RouteNode.getIndexRoute : RouteNode → Option RouteNode
| .mk _ _ _ _ _ gix _ _ _ _ _ _ _ => gix

/-- Static single component of a node. -/
def RouteNode.component : RouteNode → Option Nat
| .mk _ _ _ _ _ _ c _ _ _ _ _ _ => c

/-- Eventual result of the node's deferred `getComponent` loader, if the
node defines one. -/
def RouteNode.getComponent : RouteNode → Option Nat
| .mk _ _ _ _ _ _ _ gc _ _ _ _ _ => gc

/-- Static named components map of a node. -/
def RouteNode.components : RouteNode → Option (List (String × Nat))
| .mk _ _ _ _ _ _ _ _ m _ _ _ _ => m

/-- Eventual result of the node's deferred `getComponents` loader, if the
node defines one. -/
def RouteNode.getComponents : RouteNode → Option (List (String × Nat))
| .mk _ _ _ _ _ _ _ _ _ gm _ _ _ => gm

/-- Behaviour of the node's `onEnter` hook (`none` when no hook is attached). -/
def RouteNode.onEnter : RouteNode → Option HookAct
| .mk _ _ _ _ _ _ _ _ _ _ e _ _ => e

/-- Behaviour of the node's `onChange` hook (`none` when no hook is attached). -/
def RouteNode.onChange : RouteNode → Option HookAct
| .mk _ _ _ _ _ _ _ _ _ _ _ ch _ => ch

/-- Whether the node has an `onLeave` hook attached. -/
def RouteNode.onLeave : RouteNode → Bool
| .mk _ _ _ _ _ _ _ _ _ _ _ _ l => l

/-- Children of a node once every deferred loader has delivered its result:
the `getChildRoutes` loader supplies the children when the node defines it,
otherwise the static `childRoutes` list is used. -/
def RouteNode.effChildren (n : RouteNode) : List RouteNode :=
  match n.getChildRoutes with
  | some l => l
  | none => n.childRoutes

/-- Index route of a node once every deferred loader has delivered its
result. -/
def RouteNode.effIndex (n : RouteNode) : Option RouteNode :=
  match n.getIndexRoute with
  | some r => some r
  | none => n.indexRoute

/-- Single component of a node once every deferred loader has delivered its
result. -/
def RouteNode.effComponent (n : RouteNode) : Option Nat :=
  match n.getComponent with
  | some c => some c
  | none => n.component

/-- Named components of a node once every deferred loader has delivered its
result. -/
def RouteNode.effComponents (n : RouteNode) : Option (List (String × Nat))
  :=
  match n.getComponents with
  | some m => some m
  | none => n.components

/-- Modelled from the spec: the component slot a matched node occupies in the
ordered component list of a `MatchResult` (section 4.3): a named-components
map, a single component, or an absent slot for pure layout nodes. -/
inductive Slot where
| noComp
| single (c : Nat)
| named (m : List (String × Nat))
deriving DecidableEq, Repr

/-- Component slot contributed by a node once deferred loaders are resolved. -/
def RouteNode.effSlot (n : RouteNode) : Slot :=
  match n.effComponents with
  | some m => .named m
  | none =>
    match n.effComponent with
    | some c => .single c
    | none => .noComp

/-- Compiled form of one segment of a path pattern: a literal segment, a
named dynamic segment (`:name`), or a splat (`*`). -/
inductive PatSeg where
| lit (s : String)
| param (nm : String)
| splat
deriving DecidableEq, Repr

/-- Splits a list of characters at `/` boundaries, dropping empty segments.
The first argument accumulates the current segment in reverse. -/
def segsOfChars : List Char → List Char → List String
| cur, [] => if cur = [] then [] else [String.mk cur.reverse]
| cur, c :: rest =>
  if c = '/' then
    (if cur = [] then segsOfChars [] rest else String.mk cur.reverse :: segsOfChars [] rest)
  else segsOfChars (c :: cur) rest

/-- Pathname of a location as its list of non-empty `/`-separated segments. -/
def splitPath (s : String) : List String := segsOfChars [] s.data

/-- Compiles one pattern segment: `:name` becomes a named dynamic segment,
`*` a splat, anything else a literal. -/
def compileSeg (s : String) : PatSeg :=
  match s.data with
  | ':' :: rest => .param (String.mk rest)
  | ['*'] => .splat
  | _ => .lit s

/-- Compiles a path pattern string into its list of segments. -/
def compilePattern (p : String) : List PatSeg := (splitPath p).map compileSeg

/-- Whether a pattern is absolute (starts with `/`); per the declaration file
an absolute child path is matched against the full pathname from the root
instead of being concatenated to the parent's matched prefix. -/
def isAbsolute (p : String) : Bool :=
  match p.data with
  | '/' :: _ => true
  | _ => false

/-- Modelled from the spec: matching a compiled pattern against a prefix of
the pathname segments (section 4.1).  Literal segments must coincide with the
next pathname segment, a named dynamic segment captures the next segment into
the params (required: it fails on an exhausted pathname), and a splat
captures the entire remainder.  On success the captured params and the
leftover pathname segments are returned. -/
def matchSegs : List PatSeg → List String → Option (List (String × String) × List String)
| [], rest => some ([], rest)
| .lit s :: ps, t :: ts => if s = t then matchSegs ps ts else none
| .lit _ :: _, [] => none
| .param nm :: ps, t :: ts =>
  match matchSegs ps ts with
  | some (prms, rest) => some ((nm, t) :: prms, rest)
  | none => none
| .param _ :: _, [] => none
| .splat :: ps, ts =>
  match matchSegs ps [] with
  | some (prms, rest) => some (("splat", String.intercalate "/" ts) :: prms, rest)
  | none => none

/-- Modelled from the spec: one position of a `MatchResult`: the identity of
the matched route node, its component slot, the params its own pattern
captured, and the behaviour of its lifecycle hooks (those are carried along
so the Transition Pipeline can run hooks for a previously committed branch). -/
structure MatchEntry where
  rid : Nat
  slot : Slot
  ownParams : List (String × String)
  onEnter : Option HookAct
  onChange : Option HookAct
  onLeave : Bool
deriving DecidableEq, Repr

/-- Modelled from the spec: a `MatchResult` is the ordered (root-to-leaf)
branch of matched route nodes together with their captured params and
resolved component slots. -/
abbrev MatchResult := List MatchEntry

/-- The `MatchResult` entry contributed by node `n` with captured params
`prms`, with all deferred loaders resolved. -/
def mkEntry (n : RouteNode) (prms : List (String × String)) : MatchEntry :=
  ⟨n.rid, n.effSlot, prms, n.onEnter, n.onChange, n.onLeave⟩

mutual
/-- Modelled from the spec: the Path Matcher / Branch Resolver descent at one
node (section 4.1), on a tree whose deferred loaders have all delivered
their results.  `full` is the full pathname (used by absolute child paths),
`rem` the pathname remaining at this node.  A node without a `path` matches
only via its children, or via its index route when the remaining pathname is
empty.  A node with a `path` must match a prefix of the remaining pathname;
matching then continues into its children, and if no child matches while
nothing of the pathname is left, the index route is tried, else the node is
a leaf match. -/
def matchNode (n : RouteNode) (full rem : List String) : Option MatchResult :=
  match n.path with
  | none =>
    match matchChildren n.effChildren full rem with
    | some res => some (mkEntry n [] :: res)
    | none =>
      if rem = [] then
        match n.effIndex with
        | some ix => some [mkEntry n [], mkEntry ix []]
        | none => none
      else none
  | some p =>
    match matchSegs (compilePattern p) (if isAbsolute p then full else rem) with
    | none => none
    | some (prms, leftover) =>
      match matchChildren n.effChildren full leftover with
      | some res => some (mkEntry n prms :: res)
      | none =>
        if leftover = [] then
          match n.effIndex with
          | some ix => some [mkEntry n prms, mkEntry ix []]
          | none => some [mkEntry n prms]
        else none
termination_by sizeOf n
decreasing_by
  all_goals
    cases n with
    | mk i p cs gcs a b c d e f g h k =>
      cases gcs <;> simp [RouteNode.effChildren, RouteNode.getChildRoutes, RouteNode.childRoutes] <;> omega

/-- Modelled from the spec: first-match-wins descent over a list of sibling
routes, in configuration order (section 4.1): the first sibling whose
subtree matches provides the result; a sibling whose subtree fails deeper in
the tree is skipped and the remaining siblings are still tried. -/
def matchChildren (cs : List RouteNode) (full rem : List String) : Option MatchResult :=
  match cs with
  | [] => none
  | c :: rest =>
    match matchNode c full rem with
    | some res => some res
    | none => matchChildren rest full rem
termination_by sizeOf cs
decreasing_by all_goals simp_wf <;> omega
end

/-- Modelled from the spec: the Path Matcher contract
`match(routeTree, pathname) -> MatchResult | NoMatch` (section 4.1), with
`NoMatch` as `none`. -/
def matchRoot (root : RouteNode) (segs : List String) : Option MatchResult :=
  matchNode root segs segs

/-- Last-binding-wins lookup in a params list. -/
def lookupLast (ps : List (String × String)) (k : String) : Option String :=
  match ps with
  | [] => none
  | (k', v) :: rest =>
    match lookupLast rest k with
    | some v2 => some v2
    | none => if k' = k then some v else none

/-- Concatenation of all captured params of a branch in root-to-leaf order. -/
def allParams (res : MatchResult) : List (String × String) :=
  (res.map (·.ownParams)).flatten

/-- Modelled from the spec: the merged flat parameter mapping of a
`MatchResult` (section 4.3): deeper nodes' values override shallower ones on
literal name collision. -/
def mergedLookup (res : MatchResult) (k : String) : Option String :=
  lookupLast (allParams res) k

mutual
/-- Structural boolean equality of route nodes (written by hand because the
nested occurrence of `List RouteNode` defeats automatic derivation). -/
def nodeBeq : RouteNode → RouteNode → Bool
| .mk i1 p1 cs1 g1 x1 gx1 c1 gc1 m1 gm1 e1 h1 l1,
  .mk i2 p2 cs2 g2 x2 gx2 c2 gc2 m2 gm2 e2 h2 l2 =>
  decide (i1 = i2) && decide (p1 = p2) && nodeListBeq cs1 cs2 && nodeOptListBeq g1 g2 &&
    nodeOptBeq x1 x2 && nodeOptBeq gx1 gx2 && decide (c1 = c2) && decide (gc1 = gc2) &&
    decide (m1 = m2) && decide (gm1 = gm2) && decide (e1 = e2) && decide (h1 = h2) &&
    decide (l1 = l2)
termination_by a _ => sizeOf a
decreasing_by all_goals simp_wf <;> omega

/-- Structural boolean equality of route node lists. -/
def nodeListBeq : List RouteNode → List RouteNode → Bool
| [], [] => true
| x :: xs, y :: ys => nodeBeq x y && nodeListBeq xs ys
| _, _ => false
termination_by a _ => sizeOf a
decreasing_by all_goals simp_wf <;> omega

/-- Structural boolean equality of optional route nodes. -/
def nodeOptBeq : Option RouteNode → Option RouteNode → Bool
| none, none => true
| some x, some y => nodeBeq x y
| _, _ => false
termination_by a _ => sizeOf a
decreasing_by all_goals simp_wf <;> omega

/-- Structural boolean equality of optional route node lists. -/
def nodeOptListBeq : Option (List RouteNode) → Option (List RouteNode) → Bool
| none, none => true
| some x, some y => nodeListBeq x y
| _, _ => false
termination_by a _ => sizeOf a
decreasing_by all_goals simp_wf <;> omega
end

mutual
/-- Soundness of `nodeBeq`: boolean equality implies propositional equality. -/
theorem nodeBeq_sound : ∀ a b : RouteNode, nodeBeq a b = true → a = b
| .mk i1 p1 cs1 g1 x1 gx1 c1 gc1 m1 gm1 e1 h1 l1,
  .mk i2 p2 cs2 g2 x2 gx2 c2 gc2 m2 gm2 e2 h2 l2, h => by
  simp only [nodeBeq, Bool.and_eq_true, decide_eq_true_eq, and_assoc] at h
  obtain ⟨q1, q2, q3, q4, q5, q6, q7, q8, q9, q10, q11, q12, q13⟩ := h
  subst q1 q2 q7 q8 q9 q10 q11 q12 q13
  rw [nodeListBeq_sound _ _ q3, nodeOptListBeq_sound _ _ q4,
    nodeOptBeq_sound _ _ q5, nodeOptBeq_sound _ _ q6]
termination_by a _ _ => sizeOf a
decreasing_by all_goals simp_wf <;> omega

/-- Soundness of `nodeListBeq`. -/
theorem nodeListBeq_sound : ∀ a b : List RouteNode, nodeListBeq a b = true → a = b
| [], [], _ => rfl
| x :: xs, y :: ys, h => by
  simp only [nodeListBeq, Bool.and_eq_true] at h
  rw [nodeBeq_sound _ _ h.1, nodeListBeq_sound _ _ h.2]
| [], _ :: _, h => by simp [nodeListBeq] at h
| _ :: _, [], h => by simp [nodeListBeq] at h
termination_by a _ _ => sizeOf a
decreasing_by all_goals simp_wf <;> omega

/-- Soundness of `nodeOptBeq`. -/
theorem nodeOptBeq_sound : ∀ a b : Option RouteNode, nodeOptBeq a b = true → a = b
| none, none, _ => rfl
| some x, some y, h => by
  simp only [nodeOptBeq] at h
  rw [nodeBeq_sound _ _ h]
| none, some _, h => by simp [nodeOptBeq] at h
| some _, none, h => by simp [nodeOptBeq] at h
termination_by a _ _ => sizeOf a
decreasing_by all_goals simp_wf <;> omega

/-- Soundness of `nodeOptListBeq`. -/
theorem nodeOptListBeq_sound : ∀ a b : Option (List RouteNode), nodeOptListBeq a b = true → a = b
| none, none, _ => rfl
| some x, some y, h => by
  simp only [nodeOptListBeq] at h
  rw [nodeListBeq_sound _ _ h]
| none, some _, h => by simp [nodeOptListBeq] at h
| some _, none, h => by simp [nodeOptListBeq] at h
termination_by a _ _ => sizeOf a
decreasing_by all_goals simp_wf <;> omega
end

mutual
/-- Reflexivity of `nodeBeq`. -/
theorem nodeBeq_refl : ∀ a : RouteNode, nodeBeq a a = true
| .mk i1 p1 cs1 g1 x1 gx1 c1 gc1 m1 gm1 e1 h1 l1 => by
  simp [nodeBeq, nodeListBeq_refl cs1, nodeOptListBeq_refl g1, nodeOptBeq_refl x1,
    nodeOptBeq_refl gx1]
termination_by a => sizeOf a
decreasing_by all_goals simp_wf <;> omega

/-- Reflexivity of `nodeListBeq`. -/
theorem nodeListBeq_refl : ∀ a : List RouteNode, nodeListBeq a a = true
| [] => by simp [nodeListBeq]
| x :: xs => by simp [nodeListBeq, nodeBeq_refl x, nodeListBeq_refl xs]
termination_by a => sizeOf a
decreasing_by all_goals simp_wf <;> omega

/-- Reflexivity of `nodeOptBeq`. -/
theorem nodeOptBeq_refl : ∀ a : Option RouteNode, nodeOptBeq a a = true
| none => by simp [nodeOptBeq]
| some x => by simp [nodeOptBeq, nodeBeq_refl x]
termination_by a => sizeOf a
decreasing_by all_goals simp_wf <;> omega

/-- Reflexivity of `nodeOptListBeq`. -/
theorem nodeOptListBeq_refl : ∀ a : Option (List RouteNode), nodeOptListBeq a a = true
| none => by simp [nodeOptListBeq]
| some x => by simp [nodeOptListBeq, nodeListBeq_refl x]
termination_by a => sizeOf a
decreasing_by all_goals simp_wf <;> omega
end

instance : DecidableEq RouteNode := fun a b =>
  if h : nodeBeq a b = true then isTrue (nodeBeq_sound a b h)
  else isFalse (fun he => h (he ▸ nodeBeq_refl a))

/-- Modelled from the spec: the result the Async Node Resolver delivers for
one node (section 4.2): the eventual values of the node's deferred
capabilities `getChildRoutes`, `getIndexRoute`, `getComponent`,
`getComponents`. -/
structure CachedCaps where
  children : List RouteNode
  index : Option RouteNode
  comp : Option Nat
  comps : Option (List (String × Nat))

/-- The values the node's deferred loaders will eventually deliver. -/
def capsOf (n : RouteNode) : CachedCaps :=
  ⟨n.getChildRoutes.getD [], n.getIndexRoute, n.getComponent, n.getComponents⟩

/-- One entry of the memoization cache: a resolved node together with the
result stored for it.  The stored result is certified to be what the node's
loaders deliver, which is an invariant of the resolver: a cache entry is
written exactly once, at the moment the node's loaders complete. -/
def CacheEntry := { p : RouteNode × CachedCaps // p.2 = capsOf p.1 }

/-- Modelled from the spec: the shared mutable state of the Async Node
Resolver (sections 4.2 and 5): the per-node memoization cache (append-only,
write-once per node) and, for accounting, the log of loader invocations as
pairs of the node identity and a capability tag (0 = `getChildRoutes`,
1 = `getIndexRoute`, 2 = `getComponent`, 3 = `getComponents`). -/
structure RState where
  cache : List CacheEntry
  log : List (Nat × Nat)

/-- Loader invocations performed when a node is resolved for the first
time: one per deferred capability the node defines. -/
def invocationsOf (n : RouteNode) : List (Nat × Nat) :=
  (if n.getChildRoutes.isSome then [(n.rid, 0)] else []) ++
    (if n.getIndexRoute.isSome then [(n.rid, 1)] else []) ++
    (if n.getComponent.isSome then [(n.rid, 2)] else []) ++
    (if n.getComponents.isSome then [(n.rid, 3)] else [])

/-- Cache lookup by node identity.  A hit returns the stored result together
with the certificate that it is the node's own loaders' result. -/
def lookupCache : List CacheEntry → (n : RouteNode) → Option { c : CachedCaps // c = capsOf n }
| [], _ => none
| e :: rest, n =>
  if h : nodeBeq e.val.1 n = true then
    some ⟨e.val.2, e.property.trans (by rw [nodeBeq_sound _ _ h])⟩
  else lookupCache rest n

/-- Modelled from the spec: the Async Node Resolver
`resolveNode(node, location) -> eventually {childRoutes?, indexRoute?,
component?, components?}` (section 4.2).  On a cache hit the memoized result
is returned and no loader runs; on a miss every deferred capability of the
node is invoked exactly once, the result is memoized, and the invocations
are logged. -/
def resolveNodeCaps (n : RouteNode) (s : RState) : { c : CachedCaps // c = capsOf n } × RState :=
  match lookupCache s.cache n with
  | some c => (c, s)
  | none =>
    (⟨capsOf n, rfl⟩,
      ⟨⟨(n, capsOf n), rfl⟩ :: s.cache, s.log ++ invocationsOf n⟩)

/-- Children used by the Branch Resolver at a node: the resolver's result
when the node defines `getChildRoutes`, the static `childRoutes` otherwise. -/
def resolvedChildren (n : RouteNode) (c : CachedCaps) : List RouteNode :=
  match n.getChildRoutes with
  | some _ => c.children
  | none => n.childRoutes

/-- Index route used by the Branch Resolver at a node. -/
def resolvedIndex (n : RouteNode) (c : CachedCaps) : Option RouteNode :=
  match n.getIndexRoute with
  | some _ => c.index
  | none => n.indexRoute

/-- Component slot used by the Branch Resolver at a node. -/
def resolvedSlot (n : RouteNode) (c : CachedCaps) : Slot :=
  match (match n.getComponents with | some _ => c.comps | none => n.components) with
  | some m => .named m
  | none =>
    match (match n.getComponent with | some _ => c.comp | none => n.component) with
    | some cc => .single cc
    | none => .noComp

/-- The `MatchResult` entry the Branch Resolver produces for node `n` from
the resolver-supplied capabilities `c`. -/
def mkEntryR (n : RouteNode) (c : CachedCaps) (prms : List (String × String)) : MatchEntry :=
  ⟨n.rid, resolvedSlot n c, prms, n.onEnter, n.onChange, n.onLeave⟩

/-- The resolver-supplied children coincide with the fully-static children. -/
theorem resolvedChildren_capsOf (n : RouteNode) :
    resolvedChildren n (capsOf n) = n.effChildren := by
  cases h : n.getChildRoutes <;>
    simp [resolvedChildren, capsOf, RouteNode.effChildren, h]

/-- The resolver-supplied index route coincides with the fully-static one. -/
theorem resolvedIndex_capsOf (n : RouteNode) :
    resolvedIndex n (capsOf n) = n.effIndex := by
  cases h : n.getIndexRoute <;>
    simp [resolvedIndex, capsOf, RouteNode.effIndex, h]

/-- The resolver-supplied component slot coincides with the fully-static one. -/
theorem resolvedSlot_capsOf (n : RouteNode) :
    resolvedSlot n (capsOf n) = n.effSlot := by
  cases hm : n.getComponents <;> cases hc : n.getComponent <;>
    simp [resolvedSlot, capsOf, RouteNode.effSlot, RouteNode.effComponents,
      RouteNode.effComponent, hm, hc]

/-- The Branch Resolver's entry for a node coincides with the Path Matcher's. -/
theorem mkEntryR_capsOf (n : RouteNode) (prms : List (String × String)) :
    mkEntryR n (capsOf n) prms = mkEntry n prms := by
  simp [mkEntryR, mkEntry, resolvedSlot_capsOf]

/-- Size bound used for termination of the Branch Resolver's descent. -/
theorem sizeOf_effChildren_lt (n : RouteNode) : sizeOf n.effChildren < sizeOf n := by
  cases n with
  | mk i p cs gcs a b c d e f g h k =>
    cases gcs <;>
      simp [RouteNode.effChildren, RouteNode.getChildRoutes, RouteNode.childRoutes] <;> omega

/-- Fuel-indexed executable form of the Path Matcher, used to evaluate
concrete configurations: `inl` matches one node, `inr` a sibling list, and
every recursive step consumes one unit of fuel, making the function
structurally recursive (hence computable by the kernel). -/
def matchF : Nat → RouteNode ⊕ List RouteNode → List String → List String → Option MatchResult
| 0, _, _, _ => none
| fuel + 1, .inl n, full, rem =>
  (match n.path with
   | none =>
     match matchF fuel (.inr n.effChildren) full rem with
     | some res => some (mkEntry n [] :: res)
     | none =>
       if rem = [] then
         match n.effIndex with
         | some ix => some [mkEntry n [], mkEntry ix []]
         | none => none
       else none
   | some p =>
     match matchSegs (compilePattern p) (if isAbsolute p then full else rem) with
     | none => none
     | some (prms, leftover) =>
       match matchF fuel (.inr n.effChildren) full leftover with
       | some res => some (mkEntry n prms :: res)
       | none =>
         if leftover = [] then
           match n.effIndex with
           | some ix => some [mkEntry n prms, mkEntry ix []]
           | none => some [mkEntry n prms]
         else none)
| _ + 1, .inr [], _, _ => none
| fuel + 1, .inr (c :: rest), full, rem =>
  match matchF fuel (.inl c) full rem with
  | some res => some res
  | none => matchF fuel (.inr rest) full rem

/-- With enough fuel, the executable matcher agrees with the Path Matcher,
both on single nodes and on sibling lists. -/
theorem matchF_spec : ∀ fuel : Nat,
    (∀ (n : RouteNode) (full rem : List String), sizeOf n < fuel →
      matchF fuel (.inl n) full rem = matchNode n full rem) ∧
    (∀ (cs : List RouteNode) (full rem : List String), sizeOf cs < fuel →
      matchF fuel (.inr cs) full rem = matchChildren cs full rem) := by
  intro fuel
  induction fuel with
  | zero =>
    exact ⟨fun n _ _ h => absurd h (Nat.not_lt_zero _),
      fun cs _ _ h => absurd h (Nat.not_lt_zero _)⟩
  | succ fuel ih =>
    constructor
    · intro n full rem hlt
      have hch : sizeOf n.effChildren < fuel :=
        lt_of_lt_of_le (sizeOf_effChildren_lt n) (Nat.lt_succ_iff.mp hlt)
      have h2 : ∀ full2 rem2, matchF fuel (.inr n.effChildren) full2 rem2 =
          matchChildren n.effChildren full2 rem2 :=
        fun full2 rem2 => ih.2 n.effChildren full2 rem2 hch
      simp only [matchF, matchNode, h2]
    · intro cs full rem hlt
      cases cs with
      | nil => simp only [matchF, matchChildren]
      | cons c rest =>
        have hsz : sizeOf (c :: rest) = 1 + sizeOf c + sizeOf rest := by
          simp
        have hc : sizeOf c < fuel := by omega
        have hr : sizeOf rest < fuel := by omega
        simp only [matchF, matchChildren, ih.1 c full rem hc, ih.2 rest full rem hr]

/-- Executable entry point of the Path Matcher at one node, with explicit
fuel. -/
def matchNodeEval (fuel : Nat) (n : RouteNode) (full rem : List String) : Option MatchResult :=
  matchF fuel (.inl n) full rem

/-- With enough fuel, the executable entry point computes the Path Matcher's
result. -/
theorem matchNodeEval_eq (fuel : Nat) (n : RouteNode) (full rem : List String)
    (h : sizeOf n < fuel) : matchNodeEval fuel n full rem = matchNode n full rem :=
  (matchF_spec fuel).1 n full rem h

/-- The Path Matcher contract, computed by the executable entry point. -/
theorem matchRoot_eval (root : RouteNode) (segs : List String) (fuel : Nat)
    (h : sizeOf root < fuel) : matchRoot root segs = matchNodeEval fuel root segs segs :=
  (matchNodeEval_eq fuel root segs segs h).symm

mutual
/-- Modelled from the spec: the Branch Resolver
`resolveBranch(rootNode, location) -> eventually MatchResult | NoMatch`
(section 4.3): recursive descent mirroring the Path Matcher, except that at
each node the deferred capabilities are obtained from the Async Node
Resolver (threading its memoization state) before the matching decision, and
the index route, when used, is resolved as well. -/
def resolveNodeS (n : RouteNode) (full rem : List String) (s : RState) :
    Option MatchResult × RState :=
  match resolveNodeCaps n s with
  | (caps, s1) =>
    match n.path with
    | none =>
      match resolveChildrenS (resolvedChildren n caps.val) full rem s1 with
      | (some res, s2) => (some (mkEntryR n caps.val [] :: res), s2)
      | (none, s2) =>
        if rem = [] then
          match resolvedIndex n caps.val with
          | some ix =>
            match resolveNodeCaps ix s2 with
            | (icaps, s3) => (some [mkEntryR n caps.val [], mkEntryR ix icaps.val []], s3)
          | none => (none, s2)
        else (none, s2)
    | some p =>
      match matchSegs (compilePattern p) (if isAbsolute p then full else rem) with
      | none => (none, s1)
      | some (prms, leftover) =>
        match resolveChildrenS (resolvedChildren n caps.val) full leftover s1 with
        | (some res, s2) => (some (mkEntryR n caps.val prms :: res), s2)
        | (none, s2) =>
          if leftover = [] then
            match resolvedIndex n caps.val with
            | some ix =>
              match resolveNodeCaps ix s2 with
              | (icaps, s3) => (some [mkEntryR n caps.val prms, mkEntryR ix icaps.val []], s3)
            | none => (some [mkEntryR n caps.val prms], s2)
          else (none, s2)
termination_by sizeOf n
decreasing_by
  all_goals
    rw [caps.property, resolvedChildren_capsOf]
    exact sizeOf_effChildren_lt n

/-- Modelled from the spec: the Branch Resolver's first-match-wins descent
over dynamically resolved sibling routes, in the same left-to-right order as
the static matcher (section 4.3). -/
def resolveChildrenS (cs : List RouteNode) (full rem : List String) (s : RState) :
    Option MatchResult × RState :=
  match cs with
  | [] => (none, s)
  | c :: rest =>
    match resolveNodeS c full rem s with
    | (some res, s1) => (some res, s1)
    | (none, s1) => resolveChildrenS rest full rem s1
termination_by sizeOf cs
decreasing_by all_goals simp_wf <;> omega
end

mutual
/-- Central refinement lemma: from any resolver state, the Branch Resolver's
match result at a node equals the Path Matcher's result on the fully static
tree; asynchronous resolution (with memoization) never changes what
matches. -/
theorem resolveNodeS_fst : ∀ (n : RouteNode) (full rem : List String) (s : RState),
    (resolveNodeS n full rem s).1 = matchNode n full rem
| n, full, rem, s => by
  rw [resolveNodeS, matchNode]
  rcases hc : resolveNodeCaps n s with ⟨caps, s1⟩
  have hcv : caps.val = capsOf n := caps.property
  cases hp : n.path with
  | none =>
    dsimp only
    have ih := resolveChildrenS_fst (resolvedChildren n caps.val) full rem s1
    rcases hr : resolveChildrenS (resolvedChildren n caps.val) full rem s1 with ⟨or, s2⟩
    rw [hr] at ih
    dsimp only at ih
    rw [hcv, resolvedChildren_capsOf] at ih
    rw [← ih]
    cases or with
    | some res =>
      dsimp only
      rw [hcv, mkEntryR_capsOf]
    | none =>
      dsimp only
      by_cases hrem : rem = []
      · rw [if_pos hrem, if_pos hrem, hcv, resolvedIndex_capsOf, mkEntryR_capsOf]
        cases hix : n.effIndex with
        | some ix =>
          dsimp only
          rcases hic : resolveNodeCaps ix s2 with ⟨icaps, s3⟩
          dsimp only
          rw [icaps.property, mkEntryR_capsOf]
        | none => rfl
      · rw [if_neg hrem, if_neg hrem]
  | some p =>
    dsimp only
    cases hm : matchSegs (compilePattern p) (if isAbsolute p then full else rem) with
    | none => rfl
    | some pl =>
      rcases pl with ⟨prms, leftover⟩
      dsimp only
      have ih := resolveChildrenS_fst (resolvedChildren n caps.val) full leftover s1
      rcases hr : resolveChildrenS (resolvedChildren n caps.val) full leftover s1 with ⟨or, s2⟩
      rw [hr] at ih
      dsimp only at ih
      rw [hcv, resolvedChildren_capsOf] at ih
      rw [← ih]
      cases or with
      | some res =>
        dsimp only
        rw [hcv, mkEntryR_capsOf]
      | none =>
        dsimp only
        by_cases hleft : leftover = []
        · rw [if_pos hleft, if_pos hleft, hcv, resolvedIndex_capsOf, mkEntryR_capsOf]
          cases hix : n.effIndex with
          | some ix =>
            dsimp only
            rcases hic : resolveNodeCaps ix s2 with ⟨icaps, s3⟩
            dsimp only
            rw [icaps.property, mkEntryR_capsOf]
          | none => rfl
        · rw [if_neg hleft, if_neg hleft]
termination_by n _ _ _ => sizeOf n
decreasing_by
  all_goals
    rw [caps.property, resolvedChildren_capsOf]
    exact sizeOf_effChildren_lt n

/-- List version of the central refinement lemma: first-match-wins descent
over siblings is preserved by asynchronous resolution. -/
theorem resolveChildrenS_fst : ∀ (cs : List RouteNode) (full rem : List String) (s : RState),
    (resolveChildrenS cs full rem s).1 = matchChildren cs full rem
| [], full, rem, s => by rw [resolveChildrenS, matchChildren]
| c :: rest, full, rem, s => by
  rw [resolveChildrenS, matchChildren]
  have ihc := resolveNodeS_fst c full rem s
  rcases hr : resolveNodeS c full rem s with ⟨or, s1⟩
  rw [hr] at ihc
  dsimp only at ihc
  rw [← ihc]
  cases or with
  | some res => rfl
  | none =>
    dsimp only
    exact resolveChildrenS_fst rest full rem s1
termination_by cs _ _ _ => sizeOf cs
decreasing_by all_goals simp_wf <;> omega
end

/-- Route identities of a branch, root to leaf. -/
def branchRids (res : MatchResult) : List Nat := res.map (·.rid)

/-- Modelled from the spec: one hook execution of the Transition Pipeline
(section 4.4), identifying the route (by identity) and which of its hooks
runs. -/
inductive HookEvent where
| leave (rid : Nat)
| enter (rid : Nat)
| change (rid : Nat)
deriving DecidableEq, Repr

/-- Modelled from the spec: the `left` route set of a transition
(section 4.4): routes of the previous committed branch not present in the
new branch (by identity of route node, not by path string), in leaf-to-root
order. -/
def leftEntries (prev next : MatchResult) : List MatchEntry :=
  (prev.filter (fun e => !(branchRids next).contains e.rid)).reverse

/-- Modelled from the spec: whether a route present in both branches has
differing location-derived inputs (section 4.4), here its captured params
(the inputs the claims exercise). -/
def changedEntry (prev next : MatchResult) (r : Nat) : Bool :=
  decide (((prev.find? (fun e => e.rid == r)).map (·.ownParams)) ≠
    ((next.find? (fun e => e.rid == r)).map (·.ownParams)))

/-- Modelled from the spec: the hook schedule of one transition
(section 4.4): all `onLeave` events for the `left` routes (leaf-to-root),
then `onEnter` events for entered routes and `onChange` events for changed
routes, interleaved root-to-leaf by position in the new branch; a route in
both branches with unchanged inputs contributes no event. -/
def hookEvents (prev next : MatchResult) : List HookEvent :=
  (leftEntries prev next).map (fun e => .leave e.rid) ++
    next.filterMap (fun e =>
      if (branchRids prev).contains e.rid then
        (if changedEntry prev next e.rid then some (.change e.rid) else none)
      else some (.enter e.rid))

/-- Behaviour of the hook an event would run: `onLeave` hooks are
fire-and-forget and cannot redirect, `onEnter`/`onChange` behave as the
corresponding route of the new branch specifies (absent hooks proceed). -/
def actFor (next : MatchResult) : HookEvent → HookAct
| .leave _ => .proceed
| .enter r =>
  match next.find? (fun e => e.rid == r) with
  | some e => e.onEnter.getD .proceed
  | none => .proceed
| .change r =>
  match next.find? (fun e => e.rid == r) with
  | some e => e.onChange.getD .proceed
  | none => .proceed

/-- Modelled from the spec: sequential hook execution of the Transition
Pipeline (section 4.4).  Hooks run in schedule order; a hook calling the
redirect function aborts the pass immediately: no later hook of the
schedule runs.  Returns the events whose hooks actually ran and the
requested redirect target, if any. -/
def runHooks (next : MatchResult) : List HookEvent → List HookEvent × Option String
| [] => ([], none)
| ev :: rest =>
  match actFor next ev with
  | .redirect l => ([ev], some l)
  | .proceed =>
    match runHooks next rest with
    | (fired, out) => (ev :: fired, out)

/-- Modelled from the spec: the outcome of one transition attempt
(section 4.4): the transition commits its resolved branch, is aborted by a
redirect, or finds no matching branch. -/
inductive TransitionOutcome where
| commit (next : MatchResult)
| redirect (loc : String)
| noMatch
deriving DecidableEq, Repr

/-- Modelled from the spec: one transition of the Transition Pipeline
(section 4.4): resolve the new branch, compute the hook schedule against
the previous committed branch and run it; a redirect request aborts the
transition (no commit), otherwise the resolved branch is committed.  Also
returns the hook events that ran. -/
def runTransition (root : RouteNode) (prev : MatchResult) (segs : List String) :
    TransitionOutcome × List HookEvent :=
  match matchRoot root segs with
  | none => (.noMatch, [])
  | some next =>
    match runHooks next (hookEvents prev next) with
    | (fired, some l) => (.redirect l, fired)
    | (fired, none) => (.commit next, fired)

/-- Modelled from the spec: the final outcome of one navigation
(sections 4.4 and 7): a committed branch, the normal 404 outcome, or the
`RedirectLoop` error once chained redirects exhaust the bounded count. -/
inductive NavResult where
| committed (next : MatchResult)
| noMatch
| redirectLoop
deriving DecidableEq, Repr

/-- Modelled from the spec: one navigation with redirect chasing
(sections 4.4 and 7): a transition aborted by a redirect starts a brand-new
transition against the redirect target; chained redirects beyond the
bounded count are the `RedirectLoop` error rather than an infinite loop. -/
def navigate (root : RouteNode) (prev : MatchResult) : List String → Nat → NavResult
| _, 0 => .redirectLoop
| segs, fuel + 1 =>
  match runTransition root prev segs with
  | (.commit next, _) => .committed next
  | (.noMatch, _) => .noMatch
  | (.redirect l, _) => navigate root prev (splitPath l) fuel

/-- Modelled from the spec: the three-way outcome of the exposed
`match(routeConfig, location, callback(error, redirectLocation,
renderProps))` API (section 6 and the declaration file): an error, a
redirect location, a successful match, or — all three callback parameters
undefined — no route matched. -/
inductive MatchOutcome where
| err (e : Nat)
| redirectLoc (loc : String)
| matched (res : MatchResult)
| noMatch
deriving DecidableEq, Repr

/-- Modelled from the spec: the exposed `match` entry point for
non-interactive resolution (section 6): it resolves the location against
the route configuration without committing orchestrator state, reporting a
redirect requested by an enter hook, the matched result, or the no-match
outcome. -/
def matchAPI (root : RouteNode) (segs : List String) : MatchOutcome :=
  match runTransition root [] segs with
  | (.commit next, _) => .matched next
  | (.redirect l, _) => .redirectLoc l
  | (.noMatch, _) => .noMatch

/-- Modelled from the spec: the Router Orchestrator's transition-tracking
state (sections 4.5 and 5): the committed branch and the sequence number of
the most recently started transition. -/
structure Orchestrator where
  committed : Option MatchResult
  latestSeq : Nat
deriving DecidableEq, Repr

/-- Modelled from the spec: starting a transition assigns it the next
sequence number and records it as the latest (section 5). -/
def startTransition (o : Orchestrator) : Orchestrator × Nat :=
  ({ o with latestSeq := o.latestSeq + 1 }, o.latestSeq + 1)

/-- Modelled from the spec: completion of a transition (section 5): a
transition whose sequence number is the latest at completion time commits
its resolved branch atomically and its hook schedule runs; any other
transition is discarded — treated as aborted, with no commit and no hook
execution.  Returns the new orchestrator state, whether the transition
committed, and the hook events allowed to run. -/
def completeTransition (o : Orchestrator) (seq : Nat) (next : MatchResult)
    (evs : List HookEvent) : Orchestrator × Bool × List HookEvent :=
  if seq = o.latestSeq then ({ o with committed := some next }, true, evs)
  else (o, false, [])

/-- Example route: `users/:id` rendering component `10`. -/
def usersIdRoute : RouteNode :=
  .mk 1 (some "users/:id") [] none none none (some 10) none none none none none false

/-- Example route: `portfolios/:portfolioId` rendering component `20`. -/
def portfolioChild : RouteNode :=
  .mk 2 (some "portfolios/:portfolioId") [] none none none (some 20) none none none none none false

/-- Example route: `users/:userId` with the portfolio child route. -/
def usersTree : RouteNode :=
  .mk 1 (some "users/:userId") [portfolioChild] none none none (some 10) none none none none none false

/-- Example route: `login`, no hooks. -/
def loginRoute : RouteNode :=
  .mk 20 (some "login") [] none none none (some 99) none none none none none false

/-- Example route: `loop`, whose enter hook redirects to `/loop` itself. -/
def loopRoute : RouteNode :=
  .mk 30 (some "loop") [] none none none (some 31) none none none
    (some (.redirect "/loop")) none false

/-- Example route: `a`, whose enter hook redirects to `/login`. -/
def redirectingRoute : RouteNode :=
  .mk 40 (some "a") [] none none none (some 41) none none none
    (some (.redirect "/login")) none false

/-- Example root: a pathless layout route over the three example leaves. -/
def demoRoot : RouteNode :=
  .mk 10 none [loginRoute, loopRoute, redirectingRoute] none none none (some 11) none none none
    none none false

/-- Example route: a pathless wrapper whose children are loaded on demand by
a `getChildRoutes` loader eventually yielding the `users/:id` route. -/
def asyncUsersRoute : RouteNode :=
  .mk 3 none [] (some [usersIdRoute]) none none none none none none none none false

/-- Well-formedness of a branch as section 4.3 expects of configurations:
two distinct matched routes declare no common dynamic segment name (name
collisions across a branch "are expected not to occur in well-formed
configurations"). -/
def paramsDisjoint (a b : MatchEntry) : Prop :=
  ∀ k, lookupLast a.ownParams k ≠ none → lookupLast b.ownParams k = none

/-- Hook execution of a schedule that proceeds through `pre` and then hits a
hook requesting a redirect: the pass stops at the redirecting hook. -/
theorem runHooks_redirect (next : MatchResult) (l : String) :
    ∀ (pre post : List HookEvent) (ev : HookEvent),
    (∀ x ∈ pre, actFor next x = .proceed) → actFor next ev = .redirect l →
    runHooks next (pre ++ ev :: post) = (pre ++ [ev], some l)
| [], post, ev, _, hev => by
  simp only [List.nil_append]
  rw [runHooks, hev]
| x :: pre, post, ev, hpre, hev => by
  have hx : actFor next x = .proceed := hpre x (List.mem_cons_self x pre)
  simp only [List.cons_append]
  rw [runHooks, hx, runHooks_redirect next l pre post ev
    (fun y hy => hpre y (List.mem_cons_of_mem x hy)) hev]

/-- Last-wins lookup distributes over concatenation: the later block wins. -/
theorem lookupLast_append (l1 l2 : List (String × String)) (k : String) :
    lookupLast (l1 ++ l2) k =
      match lookupLast l2 k with
      | some v => some v
      | none => lookupLast l1 k := by
  induction l1 with
  | nil =>
    cases h : lookupLast l2 k <;> simp [lookupLast, h]
  | cons a l1 ih =>
    rcases a with ⟨k', v⟩
    cases h2 : lookupLast l2 k <;>
      simp [lookupLast, ih, h2] <;>
      cases h1 : lookupLast l1 k <;> simp [h1]

/-- Last-wins lookup misses exactly when no binding carries the key. -/
theorem lookupLast_eq_none_iff (ps : List (String × String)) (k : String) :
    lookupLast ps k = none ↔ ∀ p ∈ ps, p.1 ≠ k := by
  induction ps with
  | nil => simp [lookupLast]
  | cons a rest ih =>
    rcases a with ⟨k', v⟩
    cases h : lookupLast rest k with
    | some w =>
      have hne : ¬ ∀ p ∈ rest, p.1 ≠ k := fun hall => by
        have h2 := ih.mpr hall
        rw [h] at h2
        exact Option.noConfusion h2
      simp only [lookupLast, h]
      constructor
      · intro hc
        exact Option.noConfusion hc
      · intro hall
        exact absurd (fun p hp => hall p (List.mem_cons_of_mem _ hp)) hne
    | none =>
      simp only [lookupLast, h]
      by_cases hk : k' = k
      · rw [if_pos hk]
        constructor
        · intro hc
          exact Option.noConfusion hc
        · intro hall
          exact absurd hk (hall (k', v) (List.mem_cons_self _ _))
      · rw [if_neg hk]
        constructor
        · intro _ p hp
          rcases List.mem_cons.mp hp with he | hp'
          · rw [he]
            exact hk
          · exact ih.mp h p hp'
        · intro _
          rfl

/-- A key is among the declared names of a params list exactly when its
last-wins lookup succeeds. -/
theorem keys_contains_iff (ps : List (String × String)) (k : String) :
    (ps.map (·.1)).contains k = true ↔ lookupLast ps k ≠ none := by
  rw [Ne, lookupLast_eq_none_iff]
  simp

/-- Merged params of a branch whose blocks all miss a key also miss it. -/
theorem lookupLast_allParams_none (rs : MatchResult) (k : String)
    (h : ∀ g ∈ rs, lookupLast g.ownParams k = none) :
    lookupLast (allParams rs) k = none := by
  induction rs with
  | nil => simp [allParams, lookupLast]
  | cons f rest ih =>
    have : allParams (f :: rest) = f.ownParams ++ allParams rest := by
      simp [allParams]
    rw [this, lookupLast_append, ih (fun g hg => h g (List.mem_cons_of_mem f hg))]
    exact h f (List.mem_cons_self f rest)

/-- In a branch with pairwise-disjoint declared names, the merged params
agree with the owning entry's params on every key the entry declares. -/
theorem mergedLookup_of_mem (res : MatchResult) (e : MatchEntry) (k : String) :
    e ∈ res → res.Pairwise paramsDisjoint → lookupLast e.ownParams k ≠ none →
    mergedLookup res k = lookupLast e.ownParams k := by
  induction res with
  | nil => intro hmem; cases hmem
  | cons f rest ih =>
    intro hmem hpair hk
    rcases List.pairwise_cons.mp hpair with ⟨hf, hrest⟩
    have hcons : allParams (f :: rest) = f.ownParams ++ allParams rest := by
      simp [allParams]
    rcases List.mem_cons.mp hmem with he | he
    · subst he
      have hnone : lookupLast (allParams rest) k = none :=
        lookupLast_allParams_none rest k (fun g hg => hf g hg k hk)
      rw [mergedLookup, hcons, lookupLast_append, hnone]
    · have hmerged : mergedLookup rest k = lookupLast e.ownParams k := ih he hrest hk
      rcases h2 : lookupLast e.ownParams k with _ | v
      · exact absurd h2 hk
      · rw [mergedLookup, hcons, lookupLast_append]
        rw [mergedLookup] at hmerged
        rw [hmerged, h2]

/-- Claim C1 (first-match-wins among siblings): when sibling `A` precedes
sibling `B` in configuration order, a pathname `A`'s subtree matches is
resolved to `A`'s branch no matter what `B` would match (first conjunct),
and only when `A`'s entire subtree fails are the remaining siblings tried,
`B` first (second conjunct). -/
theorem first_match_wins (A B : RouteNode) (rest : List RouteNode)
    (full rem : List String) (r : MatchResult) :
    (matchNode A full rem = some r → matchChildren (A :: B :: rest) full rem = some r) ∧
    (matchNode A full rem = none →
      matchChildren (A :: B :: rest) full rem = matchChildren (B :: rest) full rem) := by
  constructor
  · intro h
    rw [matchChildren, h]
  · intro h
    rw [matchChildren, h]

/-- Witness for claim C1 at a concrete configuration: sibling `A` is
`users/:id`, sibling `B` the more specific literal `users/42`; the pathname
`users/42` is claimed by `A`. -/
theorem first_match_wins_witness :
    matchChildren [usersIdRoute,
      .mk 7 (some "users/42") [] none none none (some 70) none none none none none false]
      ["users", "42"] ["users", "42"] =
      some [⟨1, .single 10, [("id", "42")], none, none, false⟩] := by
  apply (first_match_wins usersIdRoute
    (.mk 7 (some "users/42") [] none none none (some 70) none none none none none false)
    [] ["users", "42"] ["users", "42"]
    [⟨1, .single 10, [("id", "42")], none, none, false⟩]).1
  rw [← matchNodeEval_eq 1000000 usersIdRoute ["users", "42"] ["users", "42"] (by decide)]
  decide

/-- Claim C2 (parameter extraction): the pattern `users/:id` matched against
the pathname `users/42` succeeds with `params.id = "42"` (the captured
params of the single matched route, and the merged params of the branch);
matched against `users` it yields `NoMatch`, because the named dynamic
segment is required. -/
theorem param_extraction :
    matchRoot usersIdRoute (splitPath "users/42") =
        some [⟨1, .single 10, [("id", "42")], none, none, false⟩] ∧
      mergedLookup [⟨1, .single 10, [("id", "42")], none, none, false⟩] "id" = some "42" ∧
      matchRoot usersIdRoute (splitPath "users") = none := by
  refine ⟨?_, by decide, ?_⟩ <;> rw [matchRoot_eval usersIdRoute _ 1000000 (by decide)] <;> decide

/-- The Path Matcher depends only on a node's pattern, resolved children,
resolved index route, identity, component slot and hooks: two nodes that
agree on those match identically. -/
theorem matchNode_congr (n1 n2 : RouteNode)
    (hpath : n1.path = n2.path) (hch : n1.effChildren = n2.effChildren)
    (hix : n1.effIndex = n2.effIndex) (hrid : n1.rid = n2.rid)
    (hslot : n1.effSlot = n2.effSlot) (hent : n1.onEnter = n2.onEnter)
    (hchg : n1.onChange = n2.onChange) (hlv : n1.onLeave = n2.onLeave)
    (full rem : List String) :
    matchNode n1 full rem = matchNode n2 full rem := by
  have hmk : ∀ prms, mkEntry n1 prms = mkEntry n2 prms := fun prms => by
    simp [mkEntry, hrid, hslot, hent, hchg, hlv]
  simp only [matchNode, hpath, hch, hix, hmk]

/-- Claim C3 (async equivalence): a node whose `getChildRoutes` loader
yields the list `cs` and the otherwise-identical node with static
`childRoutes := cs` produce identical final `MatchResult`s for every
pathname, resolved through the memoizing Branch Resolver from any resolver
states: asynchronous loading changes neither which branch matches, nor the
extracted params, nor match precedence among siblings. -/
theorem async_equivalence (i : Nat) (p : Option String) (cs : List RouteNode)
    (ix gix : Option RouteNode) (c gc : Option Nat) (m gm : Option (List (String × Nat)))
    (e ch : Option HookAct) (l : Bool) (segs : List String) (s s2 : RState) :
    (resolveNodeS (.mk i p [] (some cs) ix gix c gc m gm e ch l) segs segs s).1 =
      (resolveNodeS (.mk i p cs none ix gix c gc m gm e ch l) segs segs s2).1 := by
  rw [resolveNodeS_fst, resolveNodeS_fst]
  exact matchNode_congr (.mk i p [] (some cs) ix gix c gc m gm e ch l)
    (.mk i p cs none ix gix c gc m gm e ch l) rfl
    (by simp [RouteNode.effChildren, RouteNode.getChildRoutes, RouteNode.childRoutes])
    rfl rfl rfl rfl rfl rfl segs segs

/-- Claim C4 (resolver idempotence): resolving a node's deferred
capabilities a second time returns the memoized result and leaves the
resolver state — cache and invocation log — untouched, so the second
resolution invokes the underlying loaders exactly zero additional times;
and the first resolution of an uncached node logs exactly one invocation
per deferred capability the node defines. -/
theorem resolver_memoization (n : RouteNode) (s : RState) :
    resolveNodeCaps n (resolveNodeCaps n s).2 =
        ((resolveNodeCaps n s).1, (resolveNodeCaps n s).2) ∧
      (lookupCache s.cache n = none →
        (resolveNodeCaps n s).2.log = s.log ++ invocationsOf n) := by
  constructor
  · cases hl : lookupCache s.cache n with
    | some c => simp [resolveNodeCaps, hl]
    | none =>
      simp only [resolveNodeCaps, hl]
      simp [resolveNodeCaps, lookupCache, nodeBeq_refl n]
  · intro hl
    simp [resolveNodeCaps, hl]

/-- Witness for claim C4 at a concrete node with a deferred `getChildRoutes`
loader, starting from the empty resolver state. -/
theorem resolver_memoization_witness :
    resolveNodeCaps asyncUsersRoute (resolveNodeCaps asyncUsersRoute ⟨[], []⟩).2 =
        ((resolveNodeCaps asyncUsersRoute ⟨[], []⟩).1, (resolveNodeCaps asyncUsersRoute ⟨[], []⟩).2) ∧
      (resolveNodeCaps asyncUsersRoute ⟨[], []⟩).2.log = [] ++ invocationsOf asyncUsersRoute :=
  ⟨(resolver_memoization asyncUsersRoute ⟨[], []⟩).1,
    (resolver_memoization asyncUsersRoute ⟨[], []⟩).2 rfl⟩

/-- Claim C9 (determinism): repeated calls of the matcher with the same tree
and the same pathname return identical results — the second Branch Resolver
run, from the resolver state the first run produced, returns exactly the
first run's result (same route sequence, same params, same components), and
both equal the pure Path Matcher's result. -/
theorem matcher_deterministic (root : RouteNode) (segs : List String) (s : RState) :
    (resolveNodeS root segs segs ((resolveNodeS root segs segs s).2)).1 =
        (resolveNodeS root segs segs s).1 ∧
      (resolveNodeS root segs segs s).1 = matchRoot root segs := by
  constructor
  · rw [resolveNodeS_fst, resolveNodeS_fst]
  · rw [resolveNodeS_fst]
    rfl

/-- Claim C10 (routeParams): in a matched branch whose routes declare
pairwise-disjoint dynamic segment names (well-formed configuration), the
params a route's own pattern captured — the `routeParams` injected into its
component — are exactly the restriction of the merged params to the names
declared in that route's own path. -/
theorem route_params_subset (root : RouteNode) (segs : List String) (res : MatchResult) :
    matchRoot root segs = some res → res.Pairwise paramsDisjoint →
    ∀ e ∈ res, ∀ k : String,
      lookupLast e.ownParams k =
        if (e.ownParams.map (·.1)).contains k then mergedLookup res k else none := by
  intro _ hpair e he k
  by_cases hc : (e.ownParams.map (·.1)).contains k = true
  · rw [if_pos hc]
    exact (mergedLookup_of_mem res e k he hpair ((keys_contains_iff _ _).mp hc)).symm
  · rw [if_neg hc]
    by_contra hne
    have h2 : lookupLast e.ownParams k ≠ none := fun h0 => by
      rw [h0] at hne
      exact hne rfl
    exact hc ((keys_contains_iff _ _).mpr h2)

/-- Witness for claim C10 at the concrete configuration of the declaration
file's example: route path `users/:userId` with child `portfolios/:portfolioId`
and URL `/users/123/portfolios/345`; the parent's `routeParams` lookup of
`userId` agrees with the merged-params lookup restricted to its own declared
names. -/
theorem route_params_subset_witness :
    lookupLast (MatchEntry.ownParams ⟨1, .single 10, [("userId", "123")], none, none, false⟩)
        "userId" =
      if ((MatchEntry.ownParams ⟨1, .single 10, [("userId", "123")], none, none, false⟩).map
          (·.1)).contains "userId" then
        mergedLookup [⟨1, .single 10, [("userId", "123")], none, none, false⟩,
          ⟨2, .single 20, [("portfolioId", "345")], none, none, false⟩] "userId"
      else none := by
  have hmatch : matchRoot usersTree (splitPath "/users/123/portfolios/345") =
      some [⟨1, .single 10, [("userId", "123")], none, none, false⟩,
        ⟨2, .single 20, [("portfolioId", "345")], none, none, false⟩] := by
    rw [matchRoot_eval usersTree _ 1000000 (by decide)]
    decide
  have hpair : ([⟨1, .single 10, [("userId", "123")], none, none, false⟩,
      ⟨2, .single 20, [("portfolioId", "345")], none, none, false⟩] :
        MatchResult).Pairwise paramsDisjoint := by
    refine List.Pairwise.cons ?_ (List.Pairwise.cons (by intro b hb; cases hb) List.Pairwise.nil)
    intro b hb k hk
    rcases List.mem_singleton.mp hb with rfl
    by_cases hkeq : k = "userId"
    · subst hkeq
      decide
    · exfalso
      apply hk
      rw [lookupLast_eq_none_iff]
      intro p hp
      rcases List.mem_singleton.mp hp with rfl
      exact fun he => hkeq he.symm
  exact route_params_subset usersTree (splitPath "/users/123/portfolios/345") _ hmatch hpair
    ⟨1, .single 10, [("userId", "123")], none, none, false⟩ (by simp) "userId"

/-- Claim C5 (transition hook ordering): for a transition from previous
committed branch `[R1, R2, R3]` to new branch `[R1, R4, R5]`, compared by
route identity, the hook schedule is exactly `R3.onLeave`, `R2.onLeave`
(leaf-to-root over the left subtree), then `R4.onEnter`, `R5.onEnter`
(root-to-leaf); `R1`, present in both branches with unchanged
location-derived inputs, contributes no event at all. -/
theorem transition_hook_order (e1 e2 e3 e4 e5 : MatchEntry)
    (h21 : e2.rid ≠ e1.rid) (h24 : e2.rid ≠ e4.rid) (h25 : e2.rid ≠ e5.rid)
    (h31 : e3.rid ≠ e1.rid) (h34 : e3.rid ≠ e4.rid) (h35 : e3.rid ≠ e5.rid)
    (h41 : e4.rid ≠ e1.rid) (h51 : e5.rid ≠ e1.rid) :
    hookEvents [e1, e2, e3] [e1, e4, e5] =
      [.leave e3.rid, .leave e2.rid, .enter e4.rid, .enter e5.rid] := by
  simp [hookEvents, leftEntries, branchRids, changedEntry, List.find?,
    h21, h24, h25, h31, h34, h35, h41, h51, Ne.symm h21, Ne.symm h24, Ne.symm h25,
    Ne.symm h31, Ne.symm h34, Ne.symm h35, Ne.symm h41, Ne.symm h51]

/-- Witness for claim C5 at five concrete routes with distinct identities. -/
theorem transition_hook_order_witness :
    hookEvents
        [⟨1, .noComp, [], none, none, false⟩, ⟨2, .noComp, [], none, none, true⟩,
          ⟨3, .noComp, [], none, none, true⟩]
        [⟨1, .noComp, [], none, none, false⟩, ⟨4, .noComp, [], some .proceed, none, false⟩,
          ⟨5, .noComp, [], some .proceed, none, false⟩] =
      [.leave 3, .leave 2, .enter 4, .enter 5] :=
  transition_hook_order _ _ _ _ _ (by decide) (by decide) (by decide) (by decide) (by decide)
    (by decide) (by decide) (by decide)

/-- Claim C6 (redirects abort): a redirect requested by an enter hook aborts
the transition at that hook — the pass's hook log stops there, nothing after
it runs, and the outcome is a redirect, which is not a commit; the
orchestrator then starts a brand-new transition against the redirect target,
which is the one that commits when it succeeds; and a redirect chain that
never commits ends in the `RedirectLoop` error once the bounded count is
exhausted, for every bound. -/
theorem redirect_aborts (root : RouteNode) (prev next : MatchResult) (segs : List String)
    (pre post fired fired2 : List HookEvent) (r : Nat) (l : String) (st st2 : MatchResult)
    (fuel : Nat) :
    (matchRoot root segs = some next →
      hookEvents prev next = pre ++ .enter r :: post →
      (∀ ev ∈ pre, actFor next ev = .proceed) →
      actFor next (.enter r) = .redirect l →
      runTransition root prev segs = (.redirect l, pre ++ [.enter r])) ∧
    ((TransitionOutcome.redirect l : TransitionOutcome) ≠ .commit st2) ∧
    (runTransition root prev segs = (.redirect l, fired) →
      navigate root prev segs (fuel + 1) = navigate root prev (splitPath l) fuel) ∧
    (runTransition root prev segs = (.redirect l, fired) →
      runTransition root prev (splitPath l) = (.commit st, fired2) →
      navigate root prev segs (fuel + 2) = .committed st) ∧
    (runTransition root prev segs = (.redirect l, fired) → splitPath l = segs →
      navigate root prev segs fuel = .redirectLoop) := by
  refine ⟨?_, ?_, ?_, ?_, ?_⟩
  · intro hm hevs hpre hact
    rw [runTransition, hm]
    dsimp only
    rw [hevs, runHooks_redirect next l pre post (.enter r) hpre hact]
  · intro hc
    exact TransitionOutcome.noConfusion hc
  · intro hrt
    rw [navigate, hrt]
  · intro hrt hrt2
    rw [navigate, hrt]
    dsimp only
    rw [navigate, hrt2]
  · intro hrt hself
    induction fuel with
    | zero => rw [navigate]
    | succ f ih =>
      rw [navigate, hrt]
      dsimp only
      rw [hself]
      exact ih

/-- Witness for claim C6 on a concrete tree: entering `/a` runs the layout's
enter hook, then `a`'s enter hook, which redirects to `/login`; the
transition aborts there (outcome is the redirect, the hook log stops at
`a`), the chased navigation commits the `/login` branch instead, and the
self-redirecting route `/loop` ends in the `RedirectLoop` error. -/
theorem redirect_aborts_witness :
    runTransition demoRoot [] (splitPath "/a") =
        (.redirect "/login", [.enter 10, .enter 40]) ∧
      navigate demoRoot [] (splitPath "/a") 2 =
        .committed [⟨10, .single 11, [], none, none, false⟩,
          ⟨20, .single 99, [], none, none, false⟩] ∧
      navigate demoRoot [] (splitPath "/loop") 7 = .redirectLoop := by
  have hma : matchRoot demoRoot (splitPath "/a") =
      some [⟨10, .single 11, [], none, none, false⟩,
        ⟨40, .single 41, [], some (.redirect "/login"), none, false⟩] := by
    rw [matchRoot_eval demoRoot _ 1000000 (by decide)]
    decide
  have hml : matchRoot demoRoot (splitPath "/login") =
      some [⟨10, .single 11, [], none, none, false⟩,
        ⟨20, .single 99, [], none, none, false⟩] := by
    rw [matchRoot_eval demoRoot _ 1000000 (by decide)]
    decide
  have hmo : matchRoot demoRoot (splitPath "/loop") =
      some [⟨10, .single 11, [], none, none, false⟩,
        ⟨30, .single 31, [], some (.redirect "/loop"), none, false⟩] := by
    rw [matchRoot_eval demoRoot _ 1000000 (by decide)]
    decide
  have h1 : runTransition demoRoot [] (splitPath "/a") =
      (.redirect "/login", [.enter 10, .enter 40]) :=
    (redirect_aborts demoRoot [] _ (splitPath "/a") [.enter 10] [] [] [] 40 "/login"
      [] [] 0).1 hma (by decide) (by decide) (by decide)
  have hlogin : runTransition demoRoot [] (splitPath "/login") =
      (.commit [⟨10, .single 11, [], none, none, false⟩,
        ⟨20, .single 99, [], none, none, false⟩], [.enter 10, .enter 20]) := by
    rw [runTransition, hml]
    decide
  have hloop : runTransition demoRoot [] (splitPath "/loop") =
      (.redirect "/loop", [.enter 10, .enter 30]) :=
    (redirect_aborts demoRoot [] _ (splitPath "/loop") [.enter 10] [] [] [] 30 "/loop"
      [] [] 0).1 hmo (by decide) (by decide) (by decide)
  refine ⟨h1, ?_, ?_⟩
  · exact (redirect_aborts demoRoot [] [] (splitPath "/a") [] [] [.enter 10, .enter 40]
      [.enter 10, .enter 20] 0 "/login"
      [⟨10, .single 11, [], none, none, false⟩, ⟨20, .single 99, [], none, none, false⟩]
      [] 0).2.2.2.1 h1 hlogin
  · exact (redirect_aborts demoRoot [] [] (splitPath "/loop") [] [] [.enter 10, .enter 30]
      [] 0 "/loop" [] [] 7).2.2.2.2 hloop rfl

/-- Claim C7 (stale transitions): transitions started later receive strictly
larger sequence numbers; completing a transition whose sequence number is
not the latest changes nothing — no commit, no hook execution; in
particular, once a later transition has committed, the completion of an
earlier (smaller-sequence-number) transition never overwrites the committed
state. -/
theorem stale_transition_discard (o : Orchestrator) (s1 : Nat) (n1 : MatchResult)
    (evs : List HookEvent) :
    ((startTransition o).2 = o.latestSeq + 1 ∧
        (startTransition o).1.latestSeq = o.latestSeq + 1) ∧
      (s1 ≠ o.latestSeq → completeTransition o s1 n1 evs = (o, false, [])) ∧
      (∀ r2, s1 < o.latestSeq → o.committed = some r2 →
        (completeTransition o s1 n1 evs).1.committed = some r2 ∧
          (completeTransition o s1 n1 evs).2.1 = false ∧
          (completeTransition o s1 n1 evs).2.2 = []) := by
  refine ⟨⟨rfl, rfl⟩, ?_, ?_⟩
  · intro h
    simp [completeTransition, h]
  · intro r2 hlt hc
    have hne : s1 ≠ o.latestSeq := Nat.ne_of_lt hlt
    simp [completeTransition, hne, hc]

/-- Witness for claim C7: with the latest sequence number at 5 and a
committed branch in place, completing the stale transition number 3 commits
nothing, runs no hook, and leaves the committed branch untouched. -/
theorem stale_transition_discard_witness :
    completeTransition ⟨some [⟨1, .noComp, [], none, none, false⟩], 5⟩ 3 [] [.enter 9] =
        (⟨some [⟨1, .noComp, [], none, none, false⟩], 5⟩, false, []) ∧
      (completeTransition ⟨some [⟨1, .noComp, [], none, none, false⟩], 5⟩ 3 [] [.enter 9]).1.committed =
        some [⟨1, .noComp, [], none, none, false⟩] :=
  ⟨(stale_transition_discard ⟨some [⟨1, .noComp, [], none, none, false⟩], 5⟩ 3 [] [.enter 9]).2.1
      (by decide),
    ((stale_transition_discard ⟨some [⟨1, .noComp, [], none, none, false⟩], 5⟩ 3 [] [.enter 9]).2.2
      [⟨1, .noComp, [], none, none, false⟩] (by decide) rfl).1⟩

/-- Claim C8 (no-match is not an error): when no branch of the tree consumes
the entire pathname, the exposed `match` API returns the distinguished
`noMatch` outcome — the "all three callback parameters undefined" case —
which is a normal value, disjoint from the error outcome, from the redirect
outcome and from the matched outcome. -/
theorem nomatch_outcome (root : RouteNode) (segs : List String) :
    matchRoot root segs = none →
    matchAPI root segs = .noMatch ∧
      (∀ e, (MatchOutcome.noMatch : MatchOutcome) ≠ .err e) ∧
      (∀ l, (MatchOutcome.noMatch : MatchOutcome) ≠ .redirectLoc l) ∧
      (∀ res, (MatchOutcome.noMatch : MatchOutcome) ≠ .matched res) := by
  intro hm
  refine ⟨?_, ?_, ?_, ?_⟩
  · rw [matchAPI, runTransition, hm]
  · intro e hc
    exact MatchOutcome.noConfusion hc
  · intro l hc
    exact MatchOutcome.noConfusion hc
  · intro res hc
    exact MatchOutcome.noConfusion hc

/-- Witness for claim C8: the `users/:id` route against the pathname `nope`
produces the `noMatch` outcome of the exposed `match` API. -/
theorem nomatch_outcome_witness :
    matchAPI usersIdRoute (splitPath "nope") = .noMatch :=
  (nomatch_outcome usersIdRoute (splitPath "nope")
    (by
      rw [matchRoot_eval usersIdRoute _ 1000000 (by decide)]
      decide)).1

end ReactRouter
